import Mathlib

/-!
Verification of `src/utils.py` (jupyter-activity-data): plotting helpers over
pandas series/dataframes.  The Python functions are shallowly embedded as Lean
functions: a time-indexed numeric series is a `List (Nat × ℚ)` (UTC epoch
seconds paired with the value), a dataframe is a `List Event`, pandas results
that may be NaN or raise are explicit (`Option`, `PdResult`, `Except`).
-/

namespace JupyterActivity

/-- Result of a pandas scalar lookup/computation: a value, a NaN, a failed
label lookup (`KeyError`), or a `ValueError` (e.g. `argmax` of an empty
array). -/
inductive PdResult where
  | val (v : ℚ)
  | nan
  | keyError
  | valueError
deriving DecidableEq, Repr

/-- Seconds per day: the granularity of `resample("1d")`. -/
def DAY : Nat := 86400

/-- Midnight of the day containing `t` (the `start_day` origin pandas uses for
daily resampling). -/
def floorDay (t : Nat) : Nat := t / DAY * DAY

/-- `k` daily grid points starting at `start`: the index produced by
`resample("1d")`. -/
def gridFrom (start k : Nat) : List Nat := (List.range k).map (fun i => start + i * DAY)

/-- Ascending timestamp order on series entries: the order `sort_index`
sorts by. -/
def timeAsc (p q : Nat × ℚ) : Prop := p.1 ≤ q.1

instance : DecidableRel timeAsc := fun p q => Nat.decLe p.1 q.1

instance : IsTotal (Nat × ℚ) timeAsc := ⟨fun a b => Nat.le_total a.1 b.1⟩

instance : IsTrans (Nat × ℚ) timeAsc := ⟨fun _ _ _ hab hbc => Nat.le_trans hab hbc⟩

/-- `ts.sort_index()`: stable sort of the series by timestamp. -/
def sortTs (ts : List (Nat × ℚ)) : List (Nat × ℚ) :=
  List.insertionSort timeAsc ts

/-- Exact label lookup `ts[target]` on the series index (first occurrence). -/
def tsLookup (ts : List (Nat × ℚ)) (t : Nat) : Option ℚ :=
  (ts.find? (fun p => p.1 == t)).map Prod.snd

/-- `(bools).argmax()` on a boolean vector: index of the first `true`;
numpy returns 0 when no entry is `true`. `none` models the `ValueError`
numpy raises on an empty array. -/
def firstTrueIdx (p : α → Bool) : List α → Option Nat
  | [] => none
  | a :: l => if p a then some 0 else (firstTrueIdx p l).map (· + 1)

/-- Normalize one Python slice endpoint for a sequence of length `n`. -/
def pyClamp (n : Nat) (i : Int) : Nat :=
  if i < 0 then ((n : Int) + i).toNat else min i.toNat n

/-- Python slice `l[lo:hi]` (step 1, negative indices wrap from the end):
the semantics of `iloc[lo:hi]`. -/
def pySlice (l : List α) (lo hi : Int) : List α :=
  (l.take (pyClamp l.length hi)).drop (pyClamp l.length lo)

/-- The index produced by `s.resample("1d")`: daily points from midnight of
the first timestamp's day (pandas' `start_day` origin) through midnight of
the last timestamp's day. -/
def resampleIndex : List (Nat × ℚ) → List Nat
  | [] => []
  | (t0, v0) :: rest =>
    let tn := ((rest.getLast?).getD (t0, v0)).1
    gridFrom (floorDay t0) ((floorDay tn - floorDay t0) / DAY + 1)

/-- Reindex the series at the grid points (`Resampler.asfreq`): an exact label
match keeps its value, every other grid point is NaN. -/
def asfreq (s : List (Nat × ℚ)) (grid : List Nat) : List (Nat × Option ℚ) :=
  grid.map (fun g => (g, tsLookup s g))

/-- The valid (non-NaN) points strictly before time `g`. -/
def validBefore (s : List (Nat × Option ℚ)) (g : Nat) : List (Nat × ℚ) :=
  s.filterMap (fun p =>
    match p.2 with
    | some v => if p.1 < g then some (p.1, v) else none
    | none => none)

/-- The valid (non-NaN) points strictly after time `g`. -/
def validAfter (s : List (Nat × Option ℚ)) (g : Nat) : List (Nat × ℚ) :=
  s.filterMap (fun p =>
    match p.2 with
    | some v => if g < p.1 then some (p.1, v) else none
    | none => none)

/-- Fill one point of `interpolate(method="time")`: a known value is kept; a
NaN between two valid points is interpolated linearly in time; a NaN after
the last valid point takes the last valid value (`np.interp` clips); a NaN
before the first valid point stays NaN (`limit_direction="forward"`). -/
def fillAt (s : List (Nat × Option ℚ)) (g : Nat) : Option ℚ → Option ℚ
  | some v => some v
  | none =>
    match (validBefore s g).getLast?, (validAfter s g).head? with
    | some (t1, v1), some (t2, v2) =>
      some (v1 + (v2 - v1) * (((g : ℚ) - (t1 : ℚ)) / ((t2 : ℚ) - (t1 : ℚ))))
    | some (_, v1), none => some v1
    | none, _ => none

/-- `interpolate(method="time")` over a resampled series. -/
def interpolateTime (s : List (Nat × Option ℚ)) : List (Nat × Option ℚ) :=
  s.map (fun p => (p.1, fillAt s p.1 p.2))

/-- `.loc[t]`: exact label lookup that raises `KeyError` when the label is
absent and surfaces NaN values as NaN. -/
def locLookup (s : List (Nat × Option ℚ)) (t : Nat) : PdResult :=
  match s.find? (fun p => p.1 == t) with
  | none => PdResult.keyError
  | some (_, none) => PdResult.nan
  | some (_, some v) => PdResult.val v

/-- The miss path of `interpolate_one(ts, target)` on the sorted series
`ts1 = ts.sort_index()`: take `b` = index of the first entry after `target`
(`argmax` of the boolean mask, 0 when no entry is after and `ValueError` on
an empty series), slice the two-point neighborhood `iloc[b-1 : b+1]`,
resample it to daily granularity, interpolate in time, and look the target
up with `.loc`. -/
def interpolate_one_miss (ts1 : List (Nat × ℚ)) (target : Nat) : PdResult :=
  if ts1.isEmpty then PdResult.valueError
  else
    let b := (firstTrueIdx (fun p => target < p.1) ts1).getD 0
    let s := pySlice ts1 ((b : Int) - 1) ((b : Int) + 1)
    locLookup (interpolateTime (asfreq s (resampleIndex s))) target

/-- `interpolate_one(ts, target)` of `src/utils.py`: exact value when
`target` is in the index (no interpolation), otherwise the miss path on the
sorted series.  Timestamps are UTC epoch seconds
(`pd.to_datetime(target, utc=True)` is the identity here). -/
def interpolate_one (ts : List (Nat × ℚ)) (target : Nat) : PdResult :=
  match tsLookup ts target with
  | some v => PdResult.val v
  | none => interpolate_one_miss (sortTs ts) target

/-- A plot annotation produced by `ax.annotate` in `add_lines`: the label
text, the anchor point in data coordinates (timestamp, interpolated y), the
text offset in points, and the horizontal alignment. -/
structure Annotation where
  text : String
  xy : Nat × PdResult
  xytext : Int × Int
  halign : String
deriving DecidableEq, Repr

/-- Offset and alignment for the annotation at position `i`: even positions
(or every position when `alternate` is false) are placed up and to the left
of the point with right alignment, odd positions down-right with left
alignment. -/
def annotationParams (i : Nat) (alternate : Bool) : (Int × Int) × String :=
  if i % 2 == 0 || !alternate then ((-64, 100), "right") else ((64, -80), "left")

/-- `add_lines(sample, lines, alternate)`: one annotation per (date, text)
entry in iteration order, anchored at the interpolated value of the plotted
series at that date.  The default `lines=None` (the configured
`config["dates"]` mapping, loaded from `cfg.yaml` outside this file) is
supplied by the caller here. -/
def add_lines_go (sample : List (Nat × ℚ)) (alternate : Bool) (i : Nat) :
    List (Nat × String) → List Annotation
  | [] => []
  | (date, text) :: rest =>
    { text := text
      xy := (date, interpolate_one sample date)
      xytext := (annotationParams i alternate).1
      halign := (annotationParams i alternate).2 } :: add_lines_go sample alternate (i + 1) rest

/-- `add_lines(sample, lines, alternate)` proper: `enumerate` from 0. -/
def add_lines (sample : List (Nat × ℚ)) (lines : List (Nat × String))
    (alternate : Bool) : List Annotation :=
  add_lines_go sample alternate 0 lines

/-- A pandas timestamp as the `date` column holds it: the instant (UTC epoch
seconds, which orders and compares timestamps) together with its calendar
year component (`dt.year`). -/
structure PdTimestamp where
  epoch : Nat
  year : Nat
deriving DecidableEq, Repr

/-- One row of the events dataframe. -/
structure Event where
  type : String
  org : String
  date : PdTimestamp
  actor_id : Nat
  repo_name : String
deriving DecidableEq, Repr

/-- Python truthiness of an optional string-list argument: `None` and the
empty list are falsy. -/
def truthyStrs : Option (List String) → Bool
  | none => false
  | some l => !l.isEmpty

/-- Python truthiness of the optional `year` argument: `None` and `0` are
falsy. -/
def truthyYear : Option Nat → Bool
  | none => false
  | some y => y != 0

/-- The boolean mask one row receives from the provided filters of
`plot_events`: membership of `type` in `events`, membership of `org` in
`org`, `date >= since`, `date.dt.year == year`; a filter that is not
provided (falsy) contributes nothing. -/
def rowMask (evFilter orgFilter : Option (List String)) (since : Option PdTimestamp)
    (year : Option Nat) (e : Event) : Bool :=
  (if truthyStrs evFilter then (evFilter.getD []).contains e.type else true)
    && (if truthyStrs orgFilter then (orgFilter.getD []).contains e.org else true)
    && (match since with
        | some s => decide (s.epoch ≤ e.date.epoch)
        | none => true)
    && (if truthyYear year then e.date.year == (year.getD 0) else true)

/-- The filtering step of `plot_events`: `mask` starts as `True` and each
truthy filter is conjoined onto it; the dataframe is subset by the mask only
when at least one filter was applied (`mask is not True`). -/
def filterStep (df : List Event) (evFilter orgFilter : Option (List String))
    (since : Option PdTimestamp) (year : Option Nat) : List Event :=
  if truthyStrs evFilter || truthyStrs orgFilter || since.isSome || truthyYear year then
    df.filter (rowMask evFilter orgFilter since year)
  else df

/-- An aggregation metric looked up by name on the grouped column
(`getattr(grouped.<column>, metric)()`); the metrics used with this code. -/
inductive PdMetric where
  | count
  | nunique
  | sum
deriving DecidableEq, Repr

/-- Apply a metric to the values of one group's column. -/
def applyMetric : PdMetric → List Nat → ℚ
  | PdMetric.count, xs => (xs.length : ℚ)
  | PdMetric.nunique, xs => (xs.dedup.length : ℚ)
  | PdMetric.sum, xs => ((xs.sum : Nat) : ℚ)

/-- Lexicographic comparison of character lists by code point: the order
pandas sorts string group labels in. -/
def charListLe : List Char → List Char → Bool
  | [], _ => true
  | _ :: _, [] => false
  | a :: as, b :: bs =>
    if a.val.toNat < b.val.toNat then true
    else if b.val.toNat < a.val.toNat then false
    else charListLe as bs

/-- Ascending label order on strings (lexicographic by code point). -/
def labelAsc (a b : String) : Prop := charListLe a.data b.data = true

instance : DecidableRel labelAsc := fun a b =>
  inferInstanceAs (Decidable (charListLe a.data b.data = true))

/-- `df.groupby(key)` group labels: the distinct key values in ascending
order (pandas sorts group keys). -/
def groupKeys (df : List Event) (key : Event → String) : List String :=
  List.insertionSort labelAsc (df.map key).dedup

/-- `df.groupby(key).<column>.<metric>()`: one aggregate value per group
label, labels ascending. -/
def aggregateBy (df : List Event) (key : Event → String) (column : Event → Nat)
    (metric : PdMetric) : List (String × ℚ) :=
  (groupKeys df key).map (fun k =>
    (k, applyMetric metric ((df.filter (fun e => key e == k)).map column)))

/-- `data.nlargest(n)`: the first `n` entries of the stable descending sort
by value (pandas keeps the earlier entry on ties, `keep="first"`). -/
def nlargest (n : Nat) (data : List (String × ℚ)) : List (String × ℚ) :=
  (List.insertionSort (fun p q : String × ℚ => q.2 ≤ p.2) data).take n

/-- `plot_events` with `timeseries=False`: filter, group by `groupby` alone,
aggregate `metric` over `column`, keep the `n` largest.  When `groupby` is
falsy (`None`) the local `grouped` is never assigned, so the aggregation
line raises a `NameError`; plotting side effects (`data.plot`,
`plt.grid(False)`) do not change the returned data. -/
def plot_events_bar (df : List Event) (evFilter orgFilter : Option (List String))
    (since : Option PdTimestamp) (year : Option Nat) (n : Nat)
    (groupby : Option (Event → String)) (column : Event → Nat)
    (metric : PdMetric) : Except String (List (String × ℚ)) :=
  let dff := filterStep df evFilter orgFilter since year
  match groupby with
  | none => Except.error "NameError: grouped is not defined"
  | some g => Except.ok (nlargest n (aggregateBy dff g column metric))

/-- One step of `rolling(k).mean()`: `seen` is the reversed list of values
already passed; an output point is the mean of the last `k` values once `k`
values are available and NaN before that (`min_periods` defaults to the
window size). -/
def rollingGo (k : Nat) (seen : List ℚ) : List ℚ → List (Option ℚ)
  | [] => []
  | x :: rest =>
    (if k ≤ seen.length + 1 then some (((x :: seen).take k).sum / (k : ℚ))
     else none) :: rollingGo k (x :: seen) rest

/-- `xs.rolling(k).mean()`: trailing rolling average with window `k`. -/
def rollingMean (k : Nat) (xs : List ℚ) : List (Option ℚ) := rollingGo k [] xs

/-- `df.groupby(pd.Grouper(freq=freq, key="date")).<column>.<metric>()`: one
aggregate per time bucket, buckets ascending.  The frequency is embedded as
the bucketing function `bucket` on timestamps (e.g. month start for
`freq="M"`). -/
def aggSeries (df : List Event) (bucket : PdTimestamp → Nat) (column : Event → Nat)
    (metric : PdMetric) : List (Nat × ℚ) :=
  (List.insertionSort (fun a b => a ≤ b) (df.map (fun e => bucket e.date)).dedup).map
    (fun k => (k, applyMetric metric ((df.filter (fun e => bucket e.date == k)).map column)))

/-- `plot_events` with `timeseries=True` and `groupby=None` (the grouper is
the non-empty list `[pd.Grouper(...)]`, so it is truthy and no unstacking
happens): filter, aggregate per time bucket, and apply the trailing rolling
average when `smooth` is truthy (`None` and `0` are falsy).  Values are
`Option ℚ` because smoothing introduces NaN points. -/
def plot_events_series (df : List Event) (evFilter orgFilter : Option (List String))
    (since : Option PdTimestamp) (year : Option Nat) (bucket : PdTimestamp → Nat)
    (column : Event → Nat) (metric : PdMetric) (smooth : Option Nat) :
    List (Nat × Option ℚ) :=
  let dff := filterStep df evFilter orgFilter since year
  let data := aggSeries dff bucket column metric
  match smooth with
  | some (k + 1) => List.zip (data.map Prod.fst) (rollingMean (k + 1) (data.map Prod.snd))
  | _ => data.map (fun p => (p.1, some p.2))

/-- The fixed destination directory for saved figures
(`Path("~/Documents/Jupyter/pres/2020/jupytercon").expanduser()`; `~` stands
for the expanded user home). -/
def dest_dir : String := "~/Documents/Jupyter/pres/2020/jupytercon"

/-- The filesystem and console state `savefig` acts on: whether `dest_dir`
exists, the files written so far, and the lines printed so far. -/
structure FsState where
  destDirExists : Bool
  files : List String
  printed : List String
deriving DecidableEq, Repr

/-- `savefig(name)`: join the destination directory with `name + ".pdf"`; if
the directory does not exist, return without writing or printing; otherwise
write the figure there and print the saved path. -/
def savefig (name : String) (fs : FsState) : FsState :=
  let dest := dest_dir ++ "/" ++ name ++ ".pdf"
  if !fs.destDirExists then fs
  else
    { fs with
      files := fs.files ++ [dest]
      printed := fs.printed ++ ["Saved " ++ dest] }

/-! Rows of the dataframe used as concrete inputs in witnesses. -/

/-- A row of type `"X"` in org `"Y"`. -/
def evXY : Event :=
  { type := "X", org := "Y", date := { epoch := 100, year := 2020 }, actor_id := 1,
    repo_name := "r1" }

/-- A row of type `"X"` in org `"Z"`. -/
def evXZ : Event :=
  { type := "X", org := "Z", date := { epoch := 200, year := 2020 }, actor_id := 2,
    repo_name := "r2" }

/-- A row of type `"W"` in org `"Y"`. -/
def evWY : Event :=
  { type := "W", org := "Y", date := { epoch := 300, year := 2020 }, actor_id := 3,
    repo_name := "r3" }

/-- The three-row dataframe of the spec's filter-composition example. -/
def dfXYZ : List Event := [evXY, evXZ, evWY]

/-- First-match lookup on a series with distinct timestamps finds the stored
pair. -/
theorem tsLookup_of_mem {ts : List (Nat × ℚ)} {t : Nat} {v : ℚ}
    (hnd : (ts.map Prod.fst).Nodup) (hmem : (t, v) ∈ ts) :
    tsLookup ts t = some v := by
  induction ts with
  | nil => cases hmem
  | cons p rest ih =>
    simp only [List.map_cons, List.nodup_cons] at hnd
    rcases List.mem_cons.mp hmem with h | h
    · cases h
      simp [tsLookup]
    · by_cases hpt : p.1 = t
      · exact absurd (hpt ▸ List.mem_map_of_mem Prod.fst h) hnd.1
      · have hb : (p.1 == t) = false := by simp [hpt]
        simpa [tsLookup, List.find?_cons, hb] using ih hnd.2 h

/-- C2: for every series with a unique time index and every target timestamp
already present in the index (timestamps are already parsed, timezone-aware
instants), `interpolate_one` returns exactly the stored value at that
timestamp, with no interpolation performed. -/
theorem interpolate_one_exact (ts : List (Nat × ℚ)) (target : Nat) (v : ℚ)
    (hnd : (ts.map Prod.fst).Nodup) (hmem : (target, v) ∈ ts) :
    interpolate_one ts target = PdResult.val v := by
  simp only [interpolate_one, tsLookup_of_mem hnd hmem]

/-- C2 witness: on the unsorted series `{200 ↦ 7, 100 ↦ 3}` the stored value
at `100` is returned exactly. -/
theorem interpolate_one_exact_witness :
    (([((200 : Nat), (7 : ℚ)), (100, 3)]).map Prod.fst).Nodup
    ∧ ((100 : Nat), (3 : ℚ)) ∈ [((200 : Nat), (7 : ℚ)), (100, 3)]
    ∧ interpolate_one [((200 : Nat), (7 : ℚ)), (100, 3)] 100 = PdResult.val 3 :=
  ⟨by decide, by decide,
    interpolate_one_exact [(200, 7), (100, 3)] 100 3 (by decide) (by decide)⟩

/-- C3: for any three ordered annotation entries, `alternate=True` places the
1st and 3rd with the up-right parameters (offset `(-64, 100)`, alignment
`"right"`) and the 2nd with the down-left parameters (offset `(64, -80)`,
alignment `"left"`); `alternate=False` places all three with the up-right
parameters. -/
theorem add_lines_alternation (sample : List (Nat × ℚ)) (d1 d2 d3 : Nat)
    (s1 s2 s3 : String) :
    (add_lines sample [(d1, s1), (d2, s2), (d3, s3)] true).map
        (fun a => (a.xytext, a.halign))
      = [((-64, 100), "right"), ((64, -80), "left"), ((-64, 100), "right")]
    ∧ (add_lines sample [(d1, s1), (d2, s2), (d3, s3)] false).map
        (fun a => (a.xytext, a.halign))
      = [((-64, 100), "right"), ((-64, 100), "right"), ((-64, 100), "right")] :=
  ⟨rfl, rfl⟩

/-- C4: the filtering step is conjunctive.  Filtering by an event-type set
and an organization set together keeps exactly the rows passing both
membership tests; a row survives the combined filter exactly when it
survives each filter applied separately (intersection); filters that are not
provided are skipped, and with no filters the dataframe passes through
unchanged. -/
theorem filterStep_conjunctive (df : List Event) (es os : List String)
    (hes : es ≠ []) (hos : os ≠ []) :
    filterStep df (some es) (some os) none none
      = df.filter (fun e => es.contains e.type && os.contains e.org)
    ∧ (∀ e : Event,
        e ∈ filterStep df (some es) (some os) none none ↔
          e ∈ filterStep df (some es) none none none
            ∧ e ∈ filterStep df none (some os) none none)
    ∧ filterStep df none none none none = df := by
  have hes' : truthyStrs (some es) = true := by
    simpa [truthyStrs, List.isEmpty_iff] using hes
  have hos' : truthyStrs (some os) = true := by
    simpa [truthyStrs, List.isEmpty_iff] using hos
  have hboth : filterStep df (some es) (some os) none none
      = df.filter (fun e => es.contains e.type && os.contains e.org) := by
    unfold filterStep
    rw [if_pos (by simp [hes'])]
    refine List.filter_congr ?_
    intro e he
    simp [rowMask, hes', hos', truthyYear]
  have hev : filterStep df (some es) none none none
      = df.filter (fun e => es.contains e.type) := by
    unfold filterStep
    rw [if_pos (by simp [hes'])]
    refine List.filter_congr ?_
    intro e he
    simp [rowMask, hes', truthyStrs, truthyYear, hes]
  have horg : filterStep df none (some os) none none
      = df.filter (fun e => os.contains e.org) := by
    unfold filterStep
    rw [if_pos (by simp [hos'])]
    refine List.filter_congr ?_
    intro e he
    simp [rowMask, hos', truthyStrs, truthyYear, hos]
  refine ⟨hboth, ?_, by simp [filterStep, truthyStrs, truthyYear]⟩
  intro e
  rw [hboth, hev, horg]
  simp only [List.mem_filter, Bool.and_eq_true]
  tauto

/-- C4 witness: on the spec's example dataframe (rows X/Y, X/Z, W/Y) the
combined filter `events=["X"], org=["Y"]` behaves conjunctively. -/
theorem filterStep_conjunctive_witness :
    (["X"] ≠ ([] : List String)) ∧ (["Y"] ≠ ([] : List String))
    ∧ (filterStep dfXYZ (some ["X"]) (some ["Y"]) none none
        = dfXYZ.filter (fun e => (["X"]).contains e.type && (["Y"]).contains e.org)
      ∧ (∀ e : Event,
          e ∈ filterStep dfXYZ (some ["X"]) (some ["Y"]) none none ↔
            e ∈ filterStep dfXYZ (some ["X"]) none none none
              ∧ e ∈ filterStep dfXYZ none (some ["Y"]) none none)
      ∧ filterStep dfXYZ none none none none = dfXYZ) :=
  ⟨by decide, by decide, filterStep_conjunctive dfXYZ ["X"] ["Y"] (by decide) (by decide)⟩

/-- C7: when the destination directory is missing, `savefig` returns the
state unchanged: no file is created, nothing is printed, no error is raised;
when it exists, the figure is written to the joined path
`dest_dir/<name>.pdf` and the saved path is reported. -/
theorem savefig_silent_skip (name : String) (fs : FsState) :
    (fs.destDirExists = false → savefig name fs = fs)
    ∧ (fs.destDirExists = true →
        savefig name fs =
          { fs with
            files := fs.files ++ [dest_dir ++ "/" ++ name ++ ".pdf"]
            printed := fs.printed ++ ["Saved " ++ (dest_dir ++ "/" ++ name ++ ".pdf")] }) := by
  constructor <;> intro h <;> simp [savefig, h]

/-- C8: the filtering step never changes the input dataframe: its result is
a sublist of the input (a derived subset, the input itself is untouched in
this pure embedding), and with no filter provided the input is returned
unchanged, with no filtering applied. -/
theorem filterStep_pure (df : List Event) :
    filterStep df none none none none = df
    ∧ ∀ (evFilter orgFilter : Option (List String)) (since : Option PdTimestamp)
        (year : Option Nat),
        (filterStep df evFilter orgFilter since year).Sublist df := by
  refine ⟨by simp [filterStep, truthyStrs, truthyYear], ?_⟩
  intro evFilter orgFilter since year
  unfold filterStep
  split
  · exact List.filter_sublist df
  · exact List.Sublist.refl df

/-- C10: with `timeseries=False` and a falsy `groupby`, the local variable
`grouped` is only assigned under `if grouper:`, yet the aggregation line
reads it unconditionally, so `plot_events` fails with a `NameError` for
every input dataframe and every combination of the other arguments. -/
theorem plot_events_bar_nameError (df : List Event)
    (evFilter orgFilter : Option (List String)) (since : Option PdTimestamp)
    (year : Option Nat) (n : Nat) (column : Event → Nat) (metric : PdMetric) :
    plot_events_bar df evFilter orgFilter since year n none column metric
      = Except.error "NameError: grouped is not defined" := rfl

deriving instance DecidableEq for Except

/-- Descending order on aggregated (group, value) pairs: the order `nlargest`
sorts by. -/
def valueDesc (p q : String × ℚ) : Prop := q.2 ≤ p.2

instance : DecidableRel valueDesc := fun p q => inferInstanceAs (Decidable (q.2 ≤ p.2))

instance : IsTotal (String × ℚ) valueDesc := ⟨fun a b => le_total b.2 a.2⟩

instance : IsTrans (String × ℚ) valueDesc := ⟨fun _ _ _ hab hbc => le_trans hbc hab⟩

/-- The four-row dataframe whose per-repo `actor_id` sums are
A: 10, B: 7, C: 9, D: 1 — the spec's top-N example. -/
def dfABCD : List Event :=
  [{ type := "X", org := "o", date := { epoch := 1, year := 2020 }, actor_id := 10,
     repo_name := "A" },
   { type := "X", org := "o", date := { epoch := 2, year := 2020 }, actor_id := 7,
     repo_name := "B" },
   { type := "X", org := "o", date := { epoch := 3, year := 2020 }, actor_id := 9,
     repo_name := "C" },
   { type := "X", org := "o", date := { epoch := 4, year := 2020 }, actor_id := 1,
     repo_name := "D" }]

/-- C5: in non-time-series mode `plot_events` returns only the top `n` groups
by aggregate value in descending order.  On the spec's example (aggregate
values A: 10, B: 7, C: 9, D: 1) with `n = 2` the returned structure is
exactly A: 10 followed by C: 9; and in general the returned list is sorted
descending by value and, together with the dropped groups `rest`, is a
permutation of the aggregated data in which every returned value is at least
every dropped value. -/
theorem plot_events_bar_topn :
    plot_events_bar dfABCD none none none none 2 (some Event.repo_name) Event.actor_id
        PdMetric.sum
      = Except.ok [("A", (10 : ℚ)), ("C", 9)]
    ∧ ∀ (df : List Event) (n : Nat) (g : Event → String) (col : Event → Nat)
        (m : PdMetric),
        ∃ l rest,
          plot_events_bar df none none none none n (some g) col m = Except.ok l
          ∧ List.Pairwise valueDesc l
          ∧ (l ++ rest).Perm (aggregateBy df g col m)
          ∧ ∀ p ∈ l, ∀ q ∈ rest, q.2 ≤ p.2 := by
  constructor
  · decide
  · intro df n g col m
    have hs : List.Sorted valueDesc
        (List.insertionSort valueDesc (aggregateBy df g col m)) :=
      List.sorted_insertionSort valueDesc (aggregateBy df g col m)
    refine ⟨(List.insertionSort valueDesc (aggregateBy df g col m)).take n,
      (List.insertionSort valueDesc (aggregateBy df g col m)).drop n, rfl, ?_, ?_, ?_⟩
    · exact List.Pairwise.sublist (List.take_sublist n _) hs
    · rw [List.take_append_drop]
      exact List.perm_insertionSort valueDesc (aggregateBy df g col m)
    · have hsplit : List.Pairwise valueDesc
          ((List.insertionSort valueDesc (aggregateBy df g col m)).take n
            ++ (List.insertionSort valueDesc (aggregateBy df g col m)).drop n) := by
        rw [List.take_append_drop]
        exact hs
      exact fun p hp q hq => (List.pairwise_append.mp hsplit).2.2 p hp q hq

/-- The trailing-window helper produces one output point per input point. -/
theorem rollingGo_length (k : Nat) : ∀ (seen xs : List ℚ),
    (rollingGo k seen xs).length = xs.length := by
  intro seen xs
  induction xs generalizing seen with
  | nil => rfl
  | cons x rest ih => simp [rollingGo, ih]

/-- Summing the last `k` elements through the reversed list equals summing the
suffix of length `k`. -/
theorem sum_reverse_take (k : Nat) (l : List ℚ) :
    (l.reverse.take k).sum = (l.drop (l.length - k)).sum := by
  calc (l.reverse.take k).sum = ((l.reverse.take k).reverse).sum :=
        (List.sum_reverse _).symm
    _ = (l.rtake k).sum := by rw [List.rtake_eq_reverse_take_reverse]
    _ = (l.drop (l.length - k)).sum := by rw [List.rtake]

/-- Pointwise description of the trailing-window helper: position `i` holds
the mean of the last `k` values among the `i + 1` values passed so far plus
the prefix `seen`, or NaN when fewer than `k` are available. -/
theorem rollingGo_get (k : Nat) : ∀ (xs seen : List ℚ) (i : Nat), i < xs.length →
    (rollingGo k seen xs).get? i
      = some (if k ≤ i + 1 + seen.length
          then some ((((xs.take (i + 1)).reverse ++ seen).take k).sum / (k : ℚ))
          else none) := by
  intro xs
  induction xs with
  | nil =>
    intro seen i h
    simp at h
  | cons x rest ih =>
    intro seen i h
    cases i with
    | zero =>
      have h1 : (0 : Nat) + 1 + seen.length = seen.length + 1 := by omega
      have h2 : ((x :: rest).take (0 + 1)).reverse ++ seen = x :: seen := by simp
      rw [h1, h2]
      simp [rollingGo]
    | succ j =>
      have hj : j < rest.length := by simpa using h
      have hstep : (rollingGo k seen (x :: rest)).get? (j + 1)
          = (rollingGo k (x :: seen) rest).get? j := rfl
      rw [hstep, ih (x :: seen) j hj]
      have hc : j + 1 + (x :: seen).length = j + 1 + 1 + seen.length := by
        simp only [List.length_cons]
        omega
      have hw : (rest.take (j + 1)).reverse ++ (x :: seen)
          = ((x :: rest).take (j + 1 + 1)).reverse ++ seen := by
        simp [List.take_succ_cons, List.reverse_cons, List.append_assoc]
      rw [hc, hw]

/-- Pointwise description of `rolling(k).mean()`: position `i` is the mean of
positions `i - k + 1 .. i` once `k` values are available and NaN before. -/
theorem rollingMean_get (k : Nat) (xs : List ℚ) (i : Nat) (h : i < xs.length) :
    (rollingMean k xs).get? i
      = some (if k ≤ i + 1
          then some (((xs.take (i + 1)).drop (i + 1 - k)).sum / (k : ℚ))
          else none) := by
  rw [rollingMean, rollingGo_get k xs [] i h]
  simp only [List.length_nil, List.append_nil, Nat.add_zero]
  by_cases hk : k ≤ i + 1
  · rw [if_pos hk, if_pos hk, sum_reverse_take]
    have hlen : (xs.take (i + 1)).length = i + 1 := by
      rw [List.length_take]
      omega
    rw [hlen]
  · rw [if_neg hk, if_neg hk]

/-- C6: in time-series mode with `smooth = k` truthy, the output of
`plot_events` at time-axis position `i` is NaN while fewer than `k`
aggregated points are available (`i + 1 < k`) and otherwise equals the
arithmetic mean of the aggregated input points at positions
`i - k + 1 .. i` (the trailing window `drop (i + 1 - k)` of `take (i + 1)`). -/
theorem plot_events_series_smooth (df : List Event)
    (evFilter orgFilter : Option (List String)) (since : Option PdTimestamp)
    (year : Option Nat) (bucket : PdTimestamp → Nat) (col : Event → Nat)
    (m : PdMetric) (k i : Nat) (hk : 0 < k)
    (hi : i < (aggSeries (filterStep df evFilter orgFilter since year) bucket col m).length) :
    ((plot_events_series df evFilter orgFilter since year bucket col m (some k)).map
        Prod.snd).get? i
      = some (if k ≤ i + 1
          then some ((((((aggSeries (filterStep df evFilter orgFilter since year) bucket col
              m).map Prod.snd).take (i + 1)).drop (i + 1 - k)).sum) / (k : ℚ))
          else none) := by
  obtain ⟨j, rfl⟩ : ∃ j, k = j + 1 := ⟨k - 1, by omega⟩
  have hzip : plot_events_series df evFilter orgFilter since year bucket col m (some (j + 1))
      = List.zip
          ((aggSeries (filterStep df evFilter orgFilter since year) bucket col m).map Prod.fst)
          (rollingMean (j + 1)
            ((aggSeries (filterStep df evFilter orgFilter since year) bucket col m).map
              Prod.snd)) := rfl
  rw [hzip, List.map_snd_zip]
  · exact rollingMean_get (j + 1) _ i (by rw [List.length_map]; exact hi)
  · rw [rollingMean, rollingGo_length, List.length_map, List.length_map]

/-- Two rows in distinct time buckets: the smoothing witness dataframe. -/
def dfT2 : List Event :=
  [{ type := "X", org := "o", date := { epoch := 0, year := 2020 }, actor_id := 1,
     repo_name := "r" },
   { type := "X", org := "o", date := { epoch := 1, year := 2020 }, actor_id := 2,
     repo_name := "r" }]

/-- C6 witness: counting `dfT2` per epoch bucket gives the series `[1, 1]`;
with `smooth = 2` the point at position 1 is the mean `(1 + 1) / 2 = 1`. -/
theorem plot_events_series_smooth_witness :
    0 < 2
    ∧ 1 < (aggSeries (filterStep dfT2 none none none none) (fun t => t.epoch)
        Event.actor_id PdMetric.count).length
    ∧ ((plot_events_series dfT2 none none none none (fun t => t.epoch) Event.actor_id
          PdMetric.count (some 2)).map Prod.snd).get? 1
      = some (if 2 ≤ 1 + 1
          then some ((((((aggSeries (filterStep dfT2 none none none none) (fun t => t.epoch)
              Event.actor_id PdMetric.count).map Prod.snd).take (1 + 1)).drop
              (1 + 1 - 2)).sum) / ((2 : Nat) : ℚ))
          else none) :=
  ⟨by decide, by decide,
    plot_events_series_smooth dfT2 none none none none (fun t => t.epoch) Event.actor_id
      PdMetric.count 2 1 (by decide) (by decide)⟩

/-! Helper lemmas for the two-point interpolation path. -/

/-- `argmax` over a prefix of falses followed by a true hit. -/
theorem firstTrueIdx_append (p : α → Bool) :
    ∀ (l1 : List α) (x : α) (rest : List α), (∀ a ∈ l1, p a = false) → p x = true →
      firstTrueIdx p (l1 ++ x :: rest) = some l1.length := by
  intro l1
  induction l1 with
  | nil =>
    intro x rest h hx
    simp [firstTrueIdx, hx]
  | cons a l ih =>
    intro x rest h hx
    have ha : p a = false := h a (by simp)
    simp [firstTrueIdx, ha, ih x rest (fun b hb => h b (by simp [hb])) hx]

/-- Taking two elements past a prefix. -/
theorem take_append_two (x y : α) : ∀ (pre suf : List α),
    (pre ++ x :: y :: suf).take (pre.length + 2) = pre ++ [x, y] := by
  intro pre suf
  induction pre with
  | nil => rfl
  | cons a l ih =>
    have harith : (a :: l).length + 2 = (l.length + 2) + 1 := by simp
    rw [harith]
    simpa [List.take_succ_cons] using ih

/-- The Python slice `[b-1 : b+1]` with `b` one past the prefix picks out
exactly the two middle elements. -/
theorem pySlice_two (x y : α) (pre suf : List α) :
    pySlice (pre ++ x :: y :: suf) (((pre.length + 1 : Nat) : Int) - 1)
      (((pre.length + 1 : Nat) : Int) + 1) = [x, y] := by
  have hlo : ((pre.length + 1 : Nat) : Int) - 1 = ((pre.length : Nat) : Int) := by
    push_cast
    ring
  have hhi : ((pre.length + 1 : Nat) : Int) + 1 = ((pre.length + 2 : Nat) : Int) := by
    push_cast
    ring
  have hlen : pre.length + 2 ≤ (pre ++ x :: y :: suf).length := by
    simp
  rw [pySlice, hlo, hhi, pyClamp, pyClamp]
  rw [if_neg (by omega), if_neg (by omega)]
  rw [Int.toNat_natCast, Int.toNat_natCast]
  rw [min_eq_left hlen, min_eq_left (le_trans (by omega) hlen)]
  rw [take_append_two]
  exact List.drop_left pre [x, y]

/-- Key-based `find?` over a keyed map of a list of keys. -/
theorem find?_key_map {β : Type} (w : Nat → β) (t : Nat) :
    ∀ gs : List Nat,
      List.find? (fun p => p.1 == t) (gs.map (fun g => (g, w g)))
        = (List.find? (fun g => g == t) gs).map (fun g => (g, w g)) := by
  intro gs
  induction gs with
  | nil => rfl
  | cons g rest ih =>
    by_cases hg : g = t
    · subst hg
      simp [List.find?]
    · have hb : (g == t) = false := by simp [hg]
      simp only [List.map_cons, List.find?, hb]
      exact ih

/-- `find?` for equality with a present key. -/
theorem find?_beq_mem {t : Nat} : ∀ {gs : List Nat}, t ∈ gs →
    List.find? (fun g => g == t) gs = some t := by
  intro gs
  induction gs with
  | nil => intro h; cases h
  | cons g rest ih =>
    intro h
    by_cases hg : g = t
    · subst hg
      simp [List.find?]
    · have hb : (g == t) = false := by simp [hg]
      simp only [List.find?, hb]
      exact ih (by rcases List.mem_cons.mp h with h | h; exact absurd h.symm hg; exact h)

/-- `find?` for equality with an absent key. -/
theorem find?_beq_not_mem {t : Nat} {gs : List Nat} (h : t ∉ gs) :
    List.find? (fun g => g == t) gs = none := by
  rw [List.find?_eq_none]
  intro g hg
  simp only [beq_iff_eq]
  intro hEq
  exact h (hEq ▸ hg)

/-- A `filterMap` whose function survives on exactly one key of a
duplicate-free list yields the single image. -/
theorem filterMap_single {β : Type} {ψ : Nat → Option β} {a : Nat} {x : β} :
    ∀ {gs : List Nat}, gs.Nodup → a ∈ gs → ψ a = some x →
      (∀ g, g ≠ a → ψ g = none) → gs.filterMap ψ = [x] := by
  intro gs
  induction gs with
  | nil => intro _ h; cases h
  | cons g rest ih =>
    intro hnd hmem ha hrest
    have hnd' := List.nodup_cons.mp hnd
    by_cases hg : g = a
    · subst hg
      have hnil : rest.filterMap ψ = [] := by
        rw [List.filterMap_eq_nil_iff]
        intro b hb
        exact hrest b (fun hba => hnd'.1 (hba ▸ hb))
      simp [List.filterMap_cons, ha, hnil]
    · have hmem' : a ∈ rest := by
        rcases List.mem_cons.mp hmem with h | h
        · exact absurd h.symm hg
        · exact h
      have hgnone : ψ g = none := hrest g hg
      simp [List.filterMap_cons, hgnone, ih hnd'.2 hmem' ha hrest]

/-- Membership in the daily grid. -/
theorem gridFrom_mem {g st k : Nat} :
    g ∈ gridFrom st k ↔ ∃ i, i < k ∧ g = st + i * DAY := by
  simp only [gridFrom, List.mem_map, List.mem_range]
  constructor
  · rintro ⟨i, hi, rfl⟩
    exact ⟨i, hi, rfl⟩
  · rintro ⟨i, hi, rfl⟩
    exact ⟨i, hi, rfl⟩

/-- The daily grid has no duplicate points. -/
theorem gridFrom_nodup (st k : Nat) : (gridFrom st k).Nodup := by
  refine List.Nodup.map ?_ (List.nodup_range k)
  intro i j hij
  simp only [DAY] at hij
  omega

/-- Exact lookup on the two-point neighborhood. -/
theorem tsLookup_pair (t1 t2 g : Nat) (v1 v2 : ℚ) :
    tsLookup [(t1, v1), (t2, v2)] g
      = if g = t1 then some v1 else if g = t2 then some v2 else none := by
  by_cases hg1 : g = t1
  · subst hg1
    simp [tsLookup, List.find?_cons]
  · have hb1 : (t1 == g) = false := beq_eq_false_iff_ne.mpr (fun h => hg1 h.symm)
    by_cases hg2 : g = t2
    · subst hg2
      simp [tsLookup, List.find?_cons, hb1, hg1]
    · have hb2 : (t2 == g) = false := beq_eq_false_iff_ne.mpr (fun h => hg2 h.symm)
      simp [tsLookup, List.find?_cons, hb1, hb2, hg1, hg2]

/-- A day-aligned timestamp is its own day floor. -/
theorem floorDay_of_dvd {t : Nat} (h : DAY ∣ t) : floorDay t = t := by
  obtain ⟨a, rfl⟩ := h
  rw [floorDay, Nat.mul_div_cancel_left a (by decide : 0 < DAY), Nat.mul_comm]

/-- `interpolate(method="time")` after `asfreq` is a pointwise fill over the
grid. -/
theorem interpolateTime_asfreq (s : List (Nat × ℚ)) (grid : List Nat) :
    interpolateTime (asfreq s grid)
      = grid.map (fun g => (g, fillAt (asfreq s grid) g (tsLookup s g))) := by
  rw [interpolateTime]
  conv_lhs => rw [asfreq]
  rw [List.map_map]
  rfl

/-- On a decomposition whose prefix stays at or before `t1`, with the target
strictly between the two middle timestamps, the miss path resamples exactly
the two-point neighborhood. -/
theorem interpolate_one_miss_eq (pre suf : List (Nat × ℚ)) (t1 t2 target : Nat)
    (v1 v2 : ℚ) (hpre : ∀ p ∈ pre, p.1 ≤ t1) (h1 : t1 < target) (h2 : target < t2) :
    interpolate_one_miss (pre ++ (t1, v1) :: (t2, v2) :: suf) target
      = locLookup (interpolateTime (asfreq [(t1, v1), (t2, v2)]
          (gridFrom (floorDay t1) ((floorDay t2 - floorDay t1) / DAY + 1)))) target := by
  have hfalse : ∀ a ∈ pre ++ [(t1, v1)],
      (fun p : Nat × ℚ => decide (target < p.1)) a = false := by
    intro a ha
    rcases List.mem_append.mp ha with ha | ha
    · have := hpre a ha
      simp only [decide_eq_false_iff_not]
      omega
    · have ha' : a = (t1, v1) := by simpa using ha
      subst ha'
      simp only [decide_eq_false_iff_not]
      exact fun hcon => absurd hcon (by omega)
  have htrue : (fun p : Nat × ℚ => decide (target < p.1)) (t2, v2) = true := by
    simp only [decide_eq_true_eq]
    exact h2
  have hb : firstTrueIdx (fun p : Nat × ℚ => target < p.1)
      (pre ++ (t1, v1) :: (t2, v2) :: suf) = some (pre.length + 1) := by
    have heq : pre ++ (t1, v1) :: (t2, v2) :: suf
        = (pre ++ [(t1, v1)]) ++ (t2, v2) :: suf := by simp
    rw [heq]
    simpa using firstTrueIdx_append _ (pre ++ [(t1, v1)]) (t2, v2) suf hfalse htrue
  have hnonempty : ¬((pre ++ (t1, v1) :: (t2, v2) :: suf).isEmpty = true) := by
    simp
  rw [interpolate_one_miss, if_neg hnonempty, hb]
  simp only [Option.getD_some]
  rw [pySlice_two]
  rfl

/-- The two-point reduction of `interpolate_one` itself: when the sorted
series decomposes around two consecutive entries enclosing the target, the
result is the daily resample-interpolate lookup on those two entries. -/
theorem interpolate_one_two_point (ts pre suf : List (Nat × ℚ)) (t1 t2 target : Nat)
    (v1 v2 : ℚ) (h : sortTs ts = pre ++ (t1, v1) :: (t2, v2) :: suf)
    (h1 : t1 < target) (h2 : target < t2) :
    interpolate_one ts target
      = locLookup (interpolateTime (asfreq [(t1, v1), (t2, v2)]
          (gridFrom (floorDay t1) ((floorDay t2 - floorDay t1) / DAY + 1)))) target := by
  have hsorted : List.Sorted timeAsc (sortTs ts) := List.sorted_insertionSort timeAsc ts
  have hperm : (sortTs ts).Perm ts := List.perm_insertionSort timeAsc ts
  rw [h] at hsorted hperm
  have hpre : ∀ p ∈ pre, p.1 ≤ t1 := by
    intro p hp
    exact (List.pairwise_append.mp hsorted).2.2 p hp (t1, v1) (by simp)
  have hsuf : ∀ p ∈ suf, t2 ≤ p.1 := by
    have hc := (List.pairwise_append.mp hsorted).2.1
    have hc2 := (List.pairwise_cons.mp hc).2
    exact fun p hp => (List.pairwise_cons.mp hc2).1 p hp
  have hnone : tsLookup ts target = none := by
    rw [tsLookup, Option.map_eq_none', List.find?_eq_none]
    intro p hp
    have hp' : p ∈ pre ++ (t1, v1) :: (t2, v2) :: suf := hperm.mem_iff.mpr hp
    simp only [beq_iff_eq]
    rcases List.mem_append.mp hp' with hmem | hmem
    · have := hpre p hmem
      omega
    · rcases List.mem_cons.mp hmem with rfl | hmem
      · show ¬(t1 = target)
        omega
      · rcases List.mem_cons.mp hmem with rfl | hmem
        · show ¬(t2 = target)
          omega
        · have := hsuf p hmem
          omega
  have hdispatch : interpolate_one ts target = interpolate_one_miss (sortTs ts) target := by
    rw [interpolate_one, hnone]
  rw [hdispatch, h]
  exact interpolate_one_miss_eq pre suf t1 t2 target v1 v2 hpre h1 h2

/-- Evaluation of the resample-interpolate lookup when the neighborhood
endpoints and the target are all day-aligned: the exact linear interpolation
value in time. -/
theorem twoPoint_eval_aligned (t1 t2 target : Nat) (v1 v2 : ℚ)
    (h1 : t1 < target) (h2 : target < t2)
    (hd1 : DAY ∣ t1) (hd2 : DAY ∣ t2) (hdt : DAY ∣ target) :
    locLookup (interpolateTime (asfreq [(t1, v1), (t2, v2)]
        (gridFrom (floorDay t1) ((floorDay t2 - floorDay t1) / DAY + 1)))) target
      = PdResult.val
          (v1 + (v2 - v1) * (((target : ℚ) - (t1 : ℚ)) / ((t2 : ℚ) - (t1 : ℚ)))) := by
  obtain ⟨a, ha⟩ := hd1
  obtain ⟨c, hc⟩ := hd2
  obtain ⟨m, hm⟩ := hdt
  rw [floorDay_of_dvd ⟨a, ha⟩, floorDay_of_dvd ⟨c, hc⟩]
  have hmem_t : target ∈ gridFrom t1 ((t2 - t1) / DAY + 1) := by
    refine gridFrom_mem.mpr ⟨m - a, ?_, ?_⟩ <;>
      (simp only [DAY] at *; omega)
  have hmem_t1 : t1 ∈ gridFrom t1 ((t2 - t1) / DAY + 1) := by
    refine gridFrom_mem.mpr ⟨0, ?_, ?_⟩ <;> (simp only [DAY] at *; omega)
  have hmem_t2 : t2 ∈ gridFrom t1 ((t2 - t1) / DAY + 1) := by
    refine gridFrom_mem.mpr ⟨c - a, ?_, ?_⟩ <;> (simp only [DAY] at *; omega)
  have hnd : (gridFrom t1 ((t2 - t1) / DAY + 1)).Nodup := gridFrom_nodup _ _
  have hlookt : tsLookup [(t1, v1), (t2, v2)] target = none := by
    rw [tsLookup_pair, if_neg (by omega), if_neg (by omega)]
  have hl1 : tsLookup [(t1, v1), (t2, v2)] t1 = some v1 := by
    rw [tsLookup_pair, if_pos rfl]
  have hl2 : tsLookup [(t1, v1), (t2, v2)] t2 = some v2 := by
    rw [tsLookup_pair, if_neg (by omega), if_pos rfl]
  have hl0 : ∀ g, g ≠ t1 → g ≠ t2 → tsLookup [(t1, v1), (t2, v2)] g = none := by
    intro g hg1 hg2
    rw [tsLookup_pair, if_neg hg1, if_neg hg2]
  have hvb : validBefore (asfreq [(t1, v1), (t2, v2)] (gridFrom t1 ((t2 - t1) / DAY + 1)))
      target = [(t1, v1)] := by
    rw [validBefore, asfreq, List.filterMap_map]
    refine filterMap_single hnd hmem_t1 ?_ ?_
    · simp only [Function.comp_apply, hl1]
      rw [if_pos h1]
    · intro g hg
      by_cases hg2 : g = t2
      · subst hg2
        simp only [Function.comp_apply, hl2]
        rw [if_neg (by omega)]
      · simp only [Function.comp_apply, hl0 g hg hg2]
  have hva : validAfter (asfreq [(t1, v1), (t2, v2)] (gridFrom t1 ((t2 - t1) / DAY + 1)))
      target = [(t2, v2)] := by
    rw [validAfter, asfreq, List.filterMap_map]
    refine filterMap_single hnd hmem_t2 ?_ ?_
    · simp only [Function.comp_apply, hl2]
      rw [if_pos h2]
    · intro g hg
      by_cases hg1 : g = t1
      · subst hg1
        simp only [Function.comp_apply, hl1]
        rw [if_neg (by omega)]
      · simp only [Function.comp_apply, hl0 g hg1 hg]
  have hfill : fillAt (asfreq [(t1, v1), (t2, v2)] (gridFrom t1 ((t2 - t1) / DAY + 1)))
      target (tsLookup [(t1, v1), (t2, v2)] target)
      = some (v1 + (v2 - v1) * (((target : ℚ) - (t1 : ℚ)) / ((t2 : ℚ) - (t1 : ℚ)))) := by
    rw [hlookt, fillAt, hvb, hva]
    rfl
  rw [interpolateTime_asfreq]
  have hfind := find?_key_map
    (fun g => fillAt (asfreq [(t1, v1), (t2, v2)] (gridFrom t1 ((t2 - t1) / DAY + 1))) g
      (tsLookup [(t1, v1), (t2, v2)] g)) target (gridFrom t1 ((t2 - t1) / DAY + 1))
  rw [locLookup, hfind, find?_beq_mem hmem_t, Option.map_some', hfill]

/-- A convex combination `v1 + (v2 - v1) * r` with `0 ≤ r ≤ 1` stays between
the endpoints. -/
theorem lerp_between (v1 v2 r : ℚ) (h0 : 0 ≤ r) (hle : r ≤ 1) :
    min v1 v2 ≤ v1 + (v2 - v1) * r ∧ v1 + (v2 - v1) * r ≤ max v1 v2 := by
  rcases le_total v1 v2 with h | h
  · rw [min_eq_left h, max_eq_right h]
    constructor <;> nlinarith
  · rw [min_eq_right h, max_eq_left h]
    constructor <;> nlinarith

/-- C1 (amended): for a target strictly between two consecutive timestamps
`t1 < target < t2` of the sorted series, and with `t1`, `t2` and the target
all day-aligned (multiples of `DAY`, so that they lie on the daily resample
grid), `interpolate_one` returns a value between `min v1 v2` and
`max v1 v2` inclusive, the linear interpolation in time over the two-point
neighborhood.  (Without the day-alignment condition the lookup raises
`KeyError` or yields NaN instead of a value; see the counterexample.) -/
theorem interpolate_one_between (ts pre suf : List (Nat × ℚ)) (t1 t2 target : Nat)
    (v1 v2 : ℚ) (h : sortTs ts = pre ++ (t1, v1) :: (t2, v2) :: suf)
    (h1 : t1 < target) (h2 : target < t2)
    (hd1 : DAY ∣ t1) (hd2 : DAY ∣ t2) (hdt : DAY ∣ target) :
    ∃ v : ℚ, interpolate_one ts target = PdResult.val v
      ∧ min v1 v2 ≤ v ∧ v ≤ max v1 v2 := by
  rw [interpolate_one_two_point ts pre suf t1 t2 target v1 v2 h h1 h2,
    twoPoint_eval_aligned t1 t2 target v1 v2 h1 h2 hd1 hd2 hdt]
  have hden : (0 : ℚ) < (t2 : ℚ) - (t1 : ℚ) := by
    have : (t1 : ℚ) < (t2 : ℚ) := by exact_mod_cast (by omega : t1 < t2)
    linarith
  have hr0 : (0 : ℚ) ≤ ((target : ℚ) - (t1 : ℚ)) / ((t2 : ℚ) - (t1 : ℚ)) := by
    apply div_nonneg _ (le_of_lt hden)
    have : (t1 : ℚ) ≤ (target : ℚ) := by exact_mod_cast le_of_lt h1
    linarith
  have hr1 : ((target : ℚ) - (t1 : ℚ)) / ((t2 : ℚ) - (t1 : ℚ)) ≤ 1 := by
    rw [div_le_one hden]
    have : (target : ℚ) ≤ (t2 : ℚ) := by exact_mod_cast le_of_lt h2
    linarith
  exact ⟨_, rfl, (lerp_between v1 v2 _ hr0 hr1).1, (lerp_between v1 v2 _ hr0 hr1).2⟩

/-- The unsorted two-point series used in the C1 witness. -/
def tsW : List (Nat × ℚ) := [(172800, 3), (0, 1)]

/-- C1 witness: on the unsorted series `{2 days ↦ 3, 0 ↦ 1}` and the
day-aligned target `1 day` strictly between the two entries, the result is
a value between 1 and 3 (here the midpoint 2). -/
theorem interpolate_one_between_witness :
    sortTs tsW = [] ++ ((0 : Nat), (1 : ℚ)) :: ((172800 : Nat), (3 : ℚ)) :: []
    ∧ (0 : Nat) < 86400 ∧ (86400 : Nat) < 172800
    ∧ DAY ∣ 0 ∧ DAY ∣ 172800 ∧ DAY ∣ 86400
    ∧ ∃ v : ℚ, interpolate_one tsW 86400 = PdResult.val v
        ∧ min (1 : ℚ) 3 ≤ v ∧ v ≤ max (1 : ℚ) 3 :=
  ⟨by decide, by decide, by decide, by decide, by decide, by decide,
    interpolate_one_between tsW [] [] 0 172800 86400 1 3 (by decide) (by decide)
      (by decide) (by decide) (by decide) (by decide)⟩

/-- The sorted two-point series of the C1 counterexample. -/
def tsCex : List (Nat × ℚ) := [(0, 0), (172800, 1)]

/-- C1 counterexample: the target noon of day 0 (43200 s) lies strictly
between the consecutive sorted timestamps 0 and 172800, yet
`interpolate_one` raises `KeyError` (the target is absent from the daily
resampled index), so no value between the neighboring values is returned:
the claim fails without a grid-alignment condition. -/
theorem interpolate_one_between_cex :
    sortTs tsCex = [] ++ ((0 : Nat), (0 : ℚ)) :: ((172800 : Nat), (1 : ℚ)) :: []
    ∧ (0 : Nat) < 43200 ∧ (43200 : Nat) < 172800
    ∧ interpolate_one tsCex 43200 = PdResult.keyError
    ∧ ¬ ∃ v : ℚ, interpolate_one tsCex 43200 = PdResult.val v := by
  refine ⟨by decide, by decide, by decide, by decide, ?_⟩
  rintro ⟨v, hv⟩
  rw [show interpolate_one tsCex 43200 = PdResult.keyError from by decide] at hv
  exact PdResult.noConfusion hv

/-- C9: for a target strictly between two consecutive timestamps of the
sorted series whose time of day is not midnight (not a multiple of `DAY`,
hence absent from the daily resampled index of the two-point neighborhood),
the final `.loc` lookup fails with a `KeyError` instead of returning an
interpolated value. -/
theorem interpolate_one_offgrid (ts pre suf : List (Nat × ℚ)) (t1 t2 target : Nat)
    (v1 v2 : ℚ) (h : sortTs ts = pre ++ (t1, v1) :: (t2, v2) :: suf)
    (h1 : t1 < target) (h2 : target < t2) (hmod : target % DAY ≠ 0) :
    interpolate_one ts target = PdResult.keyError := by
  rw [interpolate_one_two_point ts pre suf t1 t2 target v1 v2 h h1 h2]
  have hnotmem : target ∉ gridFrom (floorDay t1)
      ((floorDay t2 - floorDay t1) / DAY + 1) := by
    intro hmem
    obtain ⟨i, _, hi⟩ := gridFrom_mem.mp hmem
    simp only [DAY, floorDay] at hi hmod
    omega
  rw [interpolateTime_asfreq]
  have hfind := find?_key_map
    (fun g => fillAt (asfreq [(t1, v1), (t2, v2)] (gridFrom (floorDay t1)
      ((floorDay t2 - floorDay t1) / DAY + 1))) g (tsLookup [(t1, v1), (t2, v2)] g))
    target (gridFrom (floorDay t1) ((floorDay t2 - floorDay t1) / DAY + 1))
  rw [locLookup, hfind, find?_beq_not_mem hnotmem, Option.map_none']

/-- C9 witness: on the series `{0 ↦ 5, 2 days ↦ 7}` the off-grid target
noon of day 0 raises `KeyError`. -/
theorem interpolate_one_offgrid_witness :
    sortTs [((0 : Nat), (5 : ℚ)), (172800, 7)]
        = [] ++ ((0 : Nat), (5 : ℚ)) :: ((172800 : Nat), (7 : ℚ)) :: []
    ∧ (0 : Nat) < 43200 ∧ (43200 : Nat) < 172800 ∧ (43200 : Nat) % DAY ≠ 0
    ∧ interpolate_one [((0 : Nat), (5 : ℚ)), (172800, 7)] 43200 = PdResult.keyError :=
  ⟨by decide, by decide, by decide, by decide,
    interpolate_one_offgrid [(0, 5), (172800, 7)] [] [] 0 172800 43200 5 7
      (by decide) (by decide) (by decide) (by decide)⟩

end JupyterActivity
